import Mathlib

/-!
# Verification of the iroh todos example: list lifecycle and join coordination

This file gives a shallow embedding of the todo-list lifecycle layer of the
application.  The TypeScript frontend (`src/App.tsx`, `src/component/OpenList.tsx`)
is translated directly; the Rust/tauri backend commands (`new_list`, `open_list`,
`set_ticket`, `get_todos`, `get_list_name`, `get_todo_lists`) and the ticket
codec are not part of the available sources, so they are modelled from the
specification (sections 4.1 to 4.4), as marked on each definition.
-/

set_option autoImplicit false
set_option linter.unnecessarySeqFocus false

/-- Modelled from the spec: the error taxonomy of section 7, plus
`NoActiveDocument`, which models the failure of a backend command that needs an
active document handle when no document is active (the spec's `getAll(handle)`
cannot even be issued without a handle). -/
inductive Err where
  | InvalidName
  | DuplicateName
  | NotFound
  | MalformedTicket
  | EncodingError
  | DocumentUnavailable
  | UnreachablePeers
  | BusyError
  | NoActiveDocument
deriving DecidableEq

/-! ## Ticket codec (spec section 4.1)

The Rust ticket codec is not under the available sources.  It is modelled from
the spec: a deterministic, lossless, copy-paste safe string encoding of a
(document_id, peer_endpoints) pair, rejecting with `MalformedTicket` anything
that is not exactly an encoder output.  Document ids and endpoints are opaque
identifiers, modelled as natural numbers; each is rendered as a canonical
(little-endian, no trailing zero digit) decimal digit block, and blocks are
joined with the separator character.  -/

/-- Little-endian base-10 digits, computed with structural fuel so the
definition reduces by `rfl`/`decide`.  `toDigitsAux fuel n` is correct whenever
`n ≤ fuel`. -/
def toDigitsAux : Nat → Nat → List Nat
  | 0, _ => []
  | fuel + 1, n => if n = 0 then [] else n % 10 :: toDigitsAux fuel (n / 10)

/-- Modelled from the spec: canonical little-endian decimal digits of a number
(`[]` for 0, no trailing zero digit). -/
def toDigits (n : Nat) : List Nat :=
  toDigitsAux n n

/-- Value of a little-endian digit list. -/
def ofDigits : List Nat → Nat
  | [] => 0
  | d :: ds => d + 10 * ofDigits ds

/-- Digit value of a character, `none` for anything that is not `'0'`..`'9'`. -/
def charToDigit (c : Char) : Option Nat :=
  if c = '0' then some 0 else if c = '1' then some 1 else if c = '2' then some 2
  else if c = '3' then some 3 else if c = '4' then some 4 else if c = '5' then some 5
  else if c = '6' then some 6 else if c = '7' then some 7 else if c = '8' then some 8
  else if c = '9' then some 9 else none

/-- Modelled from the spec: the character block encoding one identifier of a
ticket. -/
def compChars (n : Nat) : List Char :=
  (toDigits n).map Nat.digitChar

/-- Parse a block of digit characters; fails on any non-digit. -/
def parseDigits : List Char → Option (List Nat)
  | [] => some []
  | c :: cs =>
    match charToDigit c, parseDigits cs with
    | some d, some ds => some (d :: ds)
    | _, _ => none

/-- Parse one identifier block, accepting only the canonical digit string
produced by `compChars` (leading/trailing junk and non-canonical forms are
rejected, so corrupt input is rejected rather than silently truncated). -/
def parseComp (cs : List Char) : Option Nat :=
  match parseDigits cs with
  | some ds => if toDigits (ofDigits ds) = ds then some (ofDigits ds) else none
  | none => none

/-- Split a character list at every separator `'-'`. -/
def splitDash : List Char → List (List Char)
  | [] => [[]]
  | c :: rest =>
    match splitDash rest with
    | [] => [[]]
    | g :: gs => if c = '-' then [] :: g :: gs else (c :: g) :: gs

/-- Join character blocks with the separator `'-'`. -/
def intercalateDash : List (List Char) → List Char
  | [] => []
  | [g] => g
  | g :: gs => g ++ '-' :: intercalateDash gs

/-- Parse every block of a split ticket. -/
def parseComps : List (List Char) → Option (List Nat)
  | [] => some []
  | g :: gs =>
    match parseComp g, parseComps gs with
    | some n, some ns => some (n :: ns)
    | _, _ => none

/-- Modelled from the spec: `encode(document_id, peer_endpoints)`.  Fails with
`EncodingError` on an empty endpoint set; otherwise produces the single-line,
whitespace-free ticket string.  A pure function: no side effects. -/
def encodeTicket (d : Nat) (es : List Nat) : Except Err String :=
  if es = [] then Except.error Err.EncodingError
  else Except.ok (String.mk (intercalateDash ((d :: es).map compChars)))

/-- Modelled from the spec: `decode(ticket_string)`.  Fails with
`MalformedTicket` on anything that is not exactly an output of `encodeTicket`
(bad characters, non-canonical digit blocks, missing endpoints).  A pure, total
function: no side effects, never crashes. -/
def decodeTicket (s : String) : Except Err (Nat × List Nat) :=
  match parseComps (splitDash s.data) with
  | some (d :: e :: es) => Except.ok (d, e :: es)
  | _ => Except.error Err.MalformedTicket

/-! ## List registry (spec section 4.2)

The Rust registry is not under the available sources; it is modelled from the
spec: a durable ordered mapping from list name to document id, names unique,
most-recently-registered last. -/

/-- Look a name up in the registry (spec `lookup(name)`), the first binding
wins. -/
def lookupReg : List (String × Nat) → String → Option Nat
  | [], _ => none
  | (n, d) :: rest, name => if n = name then some d else lookupReg rest name

/-- Reverse lookup: the (first) name a document id is registered under. -/
def revLookup : List (String × Nat) → Nat → Option String
  | [], _ => none
  | (n, i) :: rest, d => if i = d then some n else revLookup rest d

/-- Modelled from the spec: `register(name, document_id)`.  Returns the new
registry together with an optional error: a no-op success when the identical
pair is already present, `DuplicateName` (registry returned unchanged) when the
name is bound to a different id, and an append otherwise. -/
def register (name : String) (d : Nat) (reg : List (String × Nat)) :
    List (String × Nat) × Option Err :=
  match lookupReg reg name with
  | some d' => if d = d' then (reg, none) else (reg, some Err.DuplicateName)
  | none => (reg ++ [(name, d)], none)

/-- Number of occurrences of the exact pair (name, d) in the registry. -/
def countPair : List (String × Nat) → String → Nat → Nat
  | [], _, _ => 0
  | (n, i) :: rest, name, d =>
    (if n = name ∧ i = d then 1 else 0) + countPair rest name d

/-- The registry invariant of spec section 3: names are unique. -/
def namesUnique : List (String × Nat) → Bool
  | [] => true
  | (n, _) :: rest =>
    match lookupReg rest n with
    | none => namesUnique rest
    | some _ => false

/-! ## Backend state and commands (spec sections 4.3, 6)

The Rust/tauri command handlers are not under the available sources; they are
modelled from the spec.  Each command is atomic: on error the backend state is
unchanged. -/

/-- A todo item (spec section 3). -/
structure Todo where
  id : Nat
  text : String
  completed : Bool
deriving DecidableEq

/-- Modelled from the spec: the backend state.  `docs` is the local document
store, `remote` the content reachable peers can supply for a synced document,
`reachable` the currently connectable peer endpoints. -/
structure Backend where
  registry : List (String × Nat)
  docs : List (Nat × List Todo)
  activeDoc : Option Nat
  activeName : Option String
  nextId : Nat
  reachable : List Nat
  remote : List (Nat × List Todo)
deriving DecidableEq

/-- Look a document up in a document store. -/
def docLookup : List (Nat × List Todo) → Nat → Option (List Todo)
  | [], _ => none
  | (i, ts) :: rest, d => if i = d then some ts else docLookup rest d

/-- Modelled from the spec: the `new_list` command (spec `create(name)`):
reject the empty name with `InvalidName`, create a fresh empty document,
register it (abandoning the document if registration fails), and make it
active. -/
def new_list (name : String) (b : Backend) : Except Err Backend :=
  if name.length == 0 then Except.error Err.InvalidName
  else
    match register name b.nextId b.registry with
    | (_, some e) => Except.error e
    | (reg', none) =>
      Except.ok { b with
        registry := reg'
        docs := (b.nextId, []) :: b.docs
        activeDoc := some b.nextId
        activeName := some name
        nextId := b.nextId + 1 }

/-- Modelled from the spec: the `open_list` command (spec `open(name)`):
`NotFound` if the name is not registered, `DocumentUnavailable` if the store
cannot materialize the document, else switch the active document. -/
def open_list (name : String) (b : Backend) : Except Err Backend :=
  match lookupReg b.registry name with
  | none => Except.error Err.NotFound
  | some d =>
    match docLookup b.docs d with
    | none => Except.error Err.DocumentUnavailable
    | some _ => Except.ok { b with activeDoc := some d, activeName := some name }

/-- Modelled from the spec: the `set_ticket` command (spec `join(ticket)`):
decode the ticket (`MalformedTicket` on failure), connect to the endpoints
(`UnreachablePeers` if none is connectable), sync the document into the local
store, register it under the existing name if the id is already known
(idempotent join, degenerating to open) or under a derived placeholder name,
and make it active. -/
def set_ticket (t : String) (b : Backend) : Except Err Backend :=
  match decodeTicket t with
  | Except.error _ => Except.error Err.MalformedTicket
  | Except.ok (d, es) =>
    if es.any (fun e => b.reachable.contains e) then
      let content := (docLookup b.remote d).getD []
      let docs' := match docLookup b.docs d with
                   | some _ => b.docs
                   | none => (d, content) :: b.docs
      match revLookup b.registry d with
      | some n =>
        Except.ok { b with docs := docs', activeDoc := some d, activeName := some n }
      | none =>
        let pname := String.mk ('l' :: compChars d)
        match register pname d b.registry with
        | (reg', none) =>
          Except.ok { b with
            registry := reg'
            docs := docs'
            activeDoc := some d
            activeName := some pname }
        | (_, some e) => Except.error e
    else Except.error Err.UnreachablePeers

/-- Modelled from the spec: the `get_todos` command, `getAll` on the active
document's handle; fails when no document is active or the active document is
not materialized. -/
def get_todos (b : Backend) : Except Err (List Todo) :=
  match b.activeDoc with
  | none => Except.error Err.NoActiveDocument
  | some d =>
    match docLookup b.docs d with
    | none => Except.error Err.DocumentUnavailable
    | some ts => Except.ok ts

/-- Modelled from the spec: the `get_list_name` command, the active list's
name. -/
def get_list_name (b : Backend) : Except Err String :=
  match b.activeName with
  | some n => Except.ok n
  | none => Except.error Err.NoActiveDocument

/-- Modelled from the spec: the `get_todo_lists` command (spec `list_all()`),
registered names in registration order. -/
def get_todo_lists (b : Backend) : List String :=
  b.registry.map Prod.fst

/-! ## Frontend (src/App.tsx)

Direct translation of the React component's handlers.  React state hooks
become the `Frontend` record; each tauri `invoke(...).then(...)` chain becomes
a state transformer on the combined state, where a rejected invocation skips
its `then` continuations (there are no catch handlers in the source). -/

/-- The React state of `App`: the `allTodos` atom and the `name`,
`showOpenList`, `todoLists` hooks. -/
structure Frontend where
  allTodos : List Todo
  name : String
  showOpenList : Bool
  todoLists : List String
deriving DecidableEq

/-- The combined application state. -/
structure AppState where
  fe : Frontend
  be : Backend
deriving DecidableEq

/-- How an invocation of a frontend handler resolved: its backend invocation
succeeded (`completed`), it was rejected with an error (`rejected`), or the
handler returned early on empty input without invoking anything (`ignored`). -/
inductive Outcome where
  | completed
  | rejected (e : Err)
  | ignored
deriving DecidableEq

/-- `getTodos` from src/App.tsx: fetch the todos of the active list, then its
name, then hide the list selector.  A rejected `get_todos` invocation skips the
whole chain; a rejected `get_list_name` skips only `setName`. -/
def getTodos (s : AppState) : AppState :=
  match get_todos s.be with
  | Except.error _ => s
  | Except.ok ts =>
    let fe1 := { s.fe with allTodos := ts }
    let fe2 := match get_list_name s.be with
               | Except.ok n => { fe1 with name := n }
               | Except.error _ => fe1
    { s with fe := { fe2 with showOpenList := false } }

/-- `createList` from src/App.tsx: early return on an empty name, otherwise
invoke `new_list` and refresh via `getTodos` on success. -/
def createList (name : String) (s : AppState) : AppState × Outcome :=
  if name.length == 0 then (s, Outcome.ignored)
  else
    match new_list name s.be with
    | Except.error e => (s, Outcome.rejected e)
    | Except.ok b' => (getTodos { s with be := b' }, Outcome.completed)

/-- `getTodoLists` from src/App.tsx: refresh the names shown in the selector. -/
def getTodoLists (s : AppState) : AppState :=
  { s with fe := { s.fe with todoLists := get_todo_lists s.be } }

/-- `openList` from src/App.tsx: early return on an empty name, otherwise
invoke `open_list` and refresh via `getTodos` on success. -/
def openList (name : String) (s : AppState) : AppState × Outcome :=
  if name.length == 0 then (s, Outcome.ignored)
  else
    match open_list name s.be with
    | Except.error e => (s, Outcome.rejected e)
    | Except.ok b' => (getTodos { s with be := b' }, Outcome.completed)

/-- `setTicket` from src/App.tsx: invoke `set_ticket`, then `getTodos` on
success. -/
def setTicket (t : String) (s : AppState) : AppState × Outcome :=
  match set_ticket t s.be with
  | Except.error e => (s, Outcome.rejected e)
  | Except.ok b' => (getTodos { s with be := b' }, Outcome.completed)

/-- `joinList` from src/App.tsx: early return on an empty ticket; otherwise
call `setTicket` and then — unconditionally, whether or not the `set_ticket`
invocation succeeds — call `getTodos` again. -/
def joinList (t : String) (s : AppState) : AppState × Outcome :=
  if t.length == 0 then (s, Outcome.ignored)
  else
    let r := setTicket t s
    (getTodos r.1, r.2)

/-- The `update-all` event handler registered by the mount effect in
src/App.tsx: every delivered event re-runs `getTodos`. -/
def handleUpdateAll (s : AppState) : AppState :=
  getTodos s

/-- Modelled from the spec: event delivery by the Change Notifier (spec
section 4.4).  A change event originating from document `src` is delivered to
the frontend handler only when `src` is the currently active document — the
per-document subscription is re-established on every switch, so a previously
active document's events are no longer delivered.  Returns the new state and
whether the event was delivered. -/
def deliverEvent (src : Nat) (s : AppState) : AppState × Bool :=
  if s.be.activeDoc = some src then (handleUpdateAll s, true) else (s, false)

/-- The view mode of spec section 3: the selector is the `selecting` mode. -/
inductive ViewMode where
  | selecting
  | viewing
deriving DecidableEq

/-- View mode of a state: src/App.tsx renders `OpenList` when `showOpenList`
holds and `TodoList` otherwise. -/
def viewMode (s : AppState) : ViewMode :=
  if s.fe.showOpenList then ViewMode.selecting else ViewMode.viewing

/-- Session State of spec section 3: active document id, active list name and
view mode. -/
def sessionState (s : AppState) : Option Nat × Option String × ViewMode :=
  (s.be.activeDoc, s.be.activeName, viewMode s)

/-- The reachability invariant of the session: while the selector is shown no
document is active (the initial state satisfies it and every handler preserves
it; see the preservation theorems below). -/
def SessionInv (s : AppState) : Prop :=
  s.fe.showOpenList = true → s.be.activeDoc = none

/-- The initial backend: empty registry and store, no active document. -/
def initBackend : Backend :=
  { registry := [], docs := [], activeDoc := none, activeName := none,
    nextId := 0, reachable := [], remote := [] }

/-- The initial frontend state of src/App.tsx: selector shown, nothing
loaded. -/
def initFrontend : Frontend :=
  { allTodos := [], name := "", showOpenList := true, todoLists := [] }

/-- The initial application state. -/
def initState : AppState :=
  { fe := initFrontend, be := initBackend }

/-! ## Codec lemmas -/

theorem ofDigits_toDigitsAux : ∀ fuel n : Nat, n ≤ fuel → ofDigits (toDigitsAux fuel n) = n := by
  intro fuel
  induction fuel with
  | zero =>
    intro n hn
    have h0 : n = 0 := by omega
    subst h0
    rfl
  | succ fuel ih =>
    intro n hn
    unfold toDigitsAux
    by_cases h0 : n = 0
    · simp [h0, ofDigits]
    · rw [if_neg h0]
      have hdiv : n / 10 ≤ fuel := by
        have := Nat.div_lt_self (Nat.pos_of_ne_zero h0) (by norm_num : 1 < 10)
        omega
      show n % 10 + 10 * ofDigits (toDigitsAux fuel (n / 10)) = n
      rw [ih (n / 10) hdiv]
      omega

theorem ofDigits_toDigits (n : Nat) : ofDigits (toDigits n) = n :=
  ofDigits_toDigitsAux n n (Nat.le_refl n)

theorem toDigitsAux_lt : ∀ fuel n d : Nat, d ∈ toDigitsAux fuel n → d < 10 := by
  intro fuel
  induction fuel with
  | zero => intro n d h; simp [toDigitsAux] at h
  | succ fuel ih =>
    intro n d h
    unfold toDigitsAux at h
    by_cases h0 : n = 0
    · simp [h0] at h
    · rw [if_neg h0] at h
      rcases List.mem_cons.mp h with h1 | h1
      · omega
      · exact ih _ _ h1

theorem toDigits_lt (n d : Nat) (h : d ∈ toDigits n) : d < 10 :=
  toDigitsAux_lt n n d h

theorem charToDigit_digitChar : ∀ d : Nat, d < 10 → charToDigit (Nat.digitChar d) = some d := by
  decide

theorem digitChar_lt_ne_dash : ∀ d : Nat, d < 10 → Nat.digitChar d ≠ '-' := by
  decide

theorem digitChar_of_charToDigit (c : Char) (d : Nat) (h : charToDigit c = some d) :
    Nat.digitChar d = c := by
  unfold charToDigit at h
  split_ifs at h with h0 h1 h2 h3 h4 h5 h6 h7 h8 h9 <;>
    ((injection h with hd) <;> (subst_vars; rfl))

theorem parseDigits_map_digitChar : ∀ ds : List Nat, (∀ d ∈ ds, d < 10) →
    parseDigits (ds.map Nat.digitChar) = some ds := by
  intro ds
  induction ds with
  | nil => intro _; rfl
  | cons d ds ih =>
    intro h
    have hd : d < 10 := h d (List.mem_cons_self d ds)
    have hds := ih (fun x hx => h x (List.mem_cons_of_mem d hx))
    simp only [List.map_cons, parseDigits, charToDigit_digitChar d hd, hds]

theorem parseDigits_inv : ∀ cs ds, parseDigits cs = some ds → ds.map Nat.digitChar = cs := by
  intro cs
  induction cs with
  | nil =>
    intro ds h
    injection h with h'
    rw [← h']
    rfl
  | cons c cs ih =>
    intro ds h
    unfold parseDigits at h
    cases hc : charToDigit c with
    | none => rw [hc] at h; cases h
    | some d =>
      cases hp : parseDigits cs with
      | none => rw [hc, hp] at h; cases h
      | some ds' =>
        rw [hc, hp] at h
        injection h with h'
        subst h'
        simp only [List.map_cons]
        rw [digitChar_of_charToDigit c d hc, ih ds' hp]

theorem parseDigits_no_dash : ∀ cs ds, parseDigits cs = some ds → '-' ∉ cs := by
  intro cs
  induction cs with
  | nil => intro ds _ hmem; simp at hmem
  | cons c cs ih =>
    intro ds h hmem
    unfold parseDigits at h
    cases hc : charToDigit c with
    | none => rw [hc] at h; cases h
    | some d =>
      cases hp : parseDigits cs with
      | none => rw [hc, hp] at h; cases h
      | some ds' =>
        rcases List.mem_cons.mp hmem with h1 | h1
        · rw [← h1, (by decide : charToDigit '-' = none)] at hc
          cases hc
        · exact ih ds' hp h1

theorem parseComp_compChars (n : Nat) : parseComp (compChars n) = some n := by
  unfold parseComp compChars
  rw [parseDigits_map_digitChar (toDigits n) (fun d hd => toDigits_lt n d hd)]
  simp [ofDigits_toDigits]

theorem parseComp_inv (cs : List Char) (n : Nat) (h : parseComp cs = some n) :
    compChars n = cs ∧ '-' ∉ cs := by
  unfold parseComp at h
  split at h
  · rename_i ds hp
    split at h
    · rename_i hc
      injection h with h'
      refine ⟨?_, parseDigits_no_dash cs ds hp⟩
      unfold compChars
      rw [← h', hc]
      exact parseDigits_inv cs ds hp
    · cases h
  · cases h

theorem splitDash_ne_nil : ∀ l : List Char, splitDash l ≠ [] := by
  intro l
  cases l with
  | nil => simp [splitDash]
  | cons c rest =>
    unfold splitDash
    cases h : splitDash rest with
    | nil => simp
    | cons g gs => by_cases hc : c = '-' <;> simp [hc]

theorem intercalateDash_splitDash : ∀ l : List Char, intercalateDash (splitDash l) = l := by
  intro l
  induction l with
  | nil => rfl
  | cons c rest ih =>
    cases h : splitDash rest with
    | nil => exact absurd h (splitDash_ne_nil rest)
    | cons g gs =>
      rw [h] at ih
      have hred : splitDash (c :: rest) =
          if c = '-' then [] :: g :: gs else (c :: g) :: gs := by
        unfold splitDash
        rw [h]
      rw [hred]
      by_cases hc : c = '-'
      · rw [if_pos hc, hc]
        show [] ++ '-' :: intercalateDash (g :: gs) = '-' :: rest
        rw [ih]
        rfl
      · rw [if_neg hc]
        cases gs with
        | nil =>
          show c :: g = c :: rest
          rw [show g = rest from ih]
        | cons g2 gs2 =>
          show (c :: g) ++ '-' :: intercalateDash (g2 :: gs2) = c :: rest
          rw [← ih]
          rfl

theorem splitDash_append (l g : List Char) (gs : List (List Char))
    (h : splitDash l = g :: gs) :
    ∀ xs : List Char, '-' ∉ xs → splitDash (xs ++ l) = (xs ++ g) :: gs := by
  intro xs
  induction xs with
  | nil => intro _; simpa using h
  | cons c xs ih =>
    intro hx
    have hc : c ≠ '-' := by
      intro hcc
      subst hcc
      exact hx (List.mem_cons_self _ _)
    have hx' : '-' ∉ xs := fun hm => hx (List.mem_cons_of_mem _ hm)
    have ih' := ih hx'
    show splitDash (c :: (xs ++ l)) = ((c :: xs) ++ g) :: gs
    unfold splitDash
    rw [ih']
    simp [hc]

theorem splitDash_intercalateDash : ∀ gs : List (List Char), gs ≠ [] →
    (∀ g ∈ gs, '-' ∉ g) → splitDash (intercalateDash gs) = gs := by
  intro gs
  induction gs with
  | nil => intro h _; exact absurd rfl h
  | cons g gs ih =>
    intro _ hno
    cases gs with
    | nil =>
      have happ := splitDash_append [] [] [] rfl g (hno g (List.mem_cons_self _ _))
      show splitDash g = [g]
      simpa using happ
    | cons g2 gs2 =>
      have ih' := ih (by simp) (fun x hx => hno x (List.mem_cons_of_mem _ hx))
      show splitDash (g ++ '-' :: intercalateDash (g2 :: gs2)) = g :: g2 :: gs2
      have hsplit : splitDash ('-' :: intercalateDash (g2 :: gs2)) = [] :: g2 :: gs2 := by
        unfold splitDash
        rw [ih']
        rfl
      have happ := splitDash_append ('-' :: intercalateDash (g2 :: gs2)) [] (g2 :: gs2)
        hsplit g (hno g (List.mem_cons_self _ _))
      simpa using happ

theorem parseComps_map_compChars : ∀ ns : List Nat, parseComps (ns.map compChars) = some ns := by
  intro ns
  induction ns with
  | nil => rfl
  | cons n ns ih => simp only [List.map_cons, parseComps, parseComp_compChars n, ih]

theorem parseComps_inv : ∀ gs ns, parseComps gs = some ns →
    ns.map compChars = gs ∧ ∀ g ∈ gs, '-' ∉ g := by
  intro gs
  induction gs with
  | nil =>
    intro ns h
    injection h with h'
    subst h'
    exact ⟨rfl, by simp⟩
  | cons g gs ih =>
    intro ns h
    unfold parseComps at h
    cases hg : parseComp g with
    | none => rw [hg] at h; cases h
    | some n =>
      cases hgs : parseComps gs with
      | none => rw [hg, hgs] at h; cases h
      | some ns' =>
        rw [hg, hgs] at h
        injection h with h'
        subst h'
        obtain ⟨h1, h2⟩ := parseComp_inv g n hg
        obtain ⟨h3, h4⟩ := ih ns' hgs
        refine ⟨by simp [h1, h3], ?_⟩
        intro x hx
        rcases List.mem_cons.mp hx with rfl | hx'
        · exact h2
        · exact h4 x hx'

theorem compChars_no_dash (n : Nat) : '-' ∉ compChars n := by
  intro hmem
  unfold compChars at hmem
  rcases List.mem_map.mp hmem with ⟨dd, hdd, hch⟩
  exact digitChar_lt_ne_dash dd (toDigits_lt n dd hdd) hch

theorem encode_decode_ticket (d : Nat) (es : List Nat) (h : es ≠ []) :
    ∃ t, encodeTicket d es = Except.ok t ∧ decodeTicket t = Except.ok (d, es) := by
  refine ⟨String.mk (intercalateDash ((d :: es).map compChars)), ?_, ?_⟩
  · unfold encodeTicket
    rw [if_neg h]
  · unfold decodeTicket
    have hsplit : splitDash (intercalateDash ((d :: es).map compChars)) =
        (d :: es).map compChars := by
      apply splitDash_intercalateDash
      · simp
      · intro g hg
        rcases List.mem_map.mp hg with ⟨n, _, rfl⟩
        exact compChars_no_dash n
    show (match parseComps (splitDash (intercalateDash ((d :: es).map compChars))) with
      | some (d :: e :: es) => Except.ok (d, e :: es)
      | _ => Except.error Err.MalformedTicket) = Except.ok (d, es)
    rw [hsplit, parseComps_map_compChars]
    cases es with
    | nil => exact absurd rfl h
    | cons e es' => rfl

theorem decode_encode_ticket (s : String) (d : Nat) (es : List Nat)
    (h : decodeTicket s = Except.ok (d, es)) :
    es ≠ [] ∧ encodeTicket d es = Except.ok s := by
  unfold decodeTicket at h
  cases hp : parseComps (splitDash s.data) with
  | none => rw [hp] at h; cases h
  | some ns =>
    rw [hp] at h
    cases ns with
    | nil => cases h
    | cons n1 rest =>
      cases rest with
      | nil => cases h
      | cons n2 rest2 =>
        injection h with h'
        rw [Prod.mk.injEq] at h'
        obtain ⟨rfl, rfl⟩ := h'
        obtain ⟨hmap, _⟩ := parseComps_inv (splitDash s.data) (n1 :: n2 :: rest2) hp
        refine ⟨by simp, ?_⟩
        unfold encodeTicket
        rw [if_neg (by simp : (n2 :: rest2 : List Nat) ≠ [])]
        rw [hmap, intercalateDash_splitDash]

/-- C2: for every pair of a document id and a non-empty endpoint list, decoding
the ticket string produced by encoding the pair returns exactly the same pair.
Both `encodeTicket` and `decodeTicket` are pure Lean functions, so neither has
side effects. -/
theorem decode_encode_roundtrip (d : Nat) (es : List Nat) (h : es ≠ []) :
    ∃ t, encodeTicket d es = Except.ok t ∧ decodeTicket t = Except.ok (d, es) :=
  encode_decode_ticket d es h

theorem decode_encode_roundtrip_witness :
    ∃ t, encodeTicket 5 [7, 13] = Except.ok t ∧
      decodeTicket t = Except.ok (5, [7, 13]) :=
  decode_encode_roundtrip 5 [7, 13] (by decide)

/-- C7: decoding is total (it never crashes), and on every string it either
returns a pair that `encodeTicket` maps back to exactly that string — i.e. the
string was produced by `encode` — or fails with `MalformedTicket`; in the
failure case the string is provably not an output of `encodeTicket`, so decode
fails with `MalformedTicket` on every input not produced by `encode` and never
returns a partially valid pair. -/
theorem decode_rejects_non_encode_outputs (s : String) :
    (∃ d es, decodeTicket s = Except.ok (d, es) ∧ es ≠ [] ∧
      encodeTicket d es = Except.ok s) ∨
    (decodeTicket s = Except.error Err.MalformedTicket ∧
      ∀ d es, es ≠ [] → encodeTicket d es ≠ Except.ok s) := by
  cases hdec : decodeTicket s with
  | ok p =>
    left
    obtain ⟨d, es⟩ := p
    obtain ⟨hne, henc⟩ := decode_encode_ticket s d es hdec
    exact ⟨d, es, rfl, hne, henc⟩
  | error e =>
    right
    have he : e = Err.MalformedTicket := by
      unfold decodeTicket at hdec
      cases hp : parseComps (splitDash s.data) with
      | none =>
        rw [hp] at hdec
        injection hdec with h'
        exact h'.symm
      | some ns =>
        rw [hp] at hdec
        cases ns with
        | nil => injection hdec with h'; exact h'.symm
        | cons a rest =>
          cases rest with
          | nil => injection hdec with h'; exact h'.symm
          | cons b r2 => cases hdec
    subst he
    refine ⟨rfl, ?_⟩
    intro d es hne henc
    obtain ⟨t, het, hdt⟩ := encode_decode_ticket d es hne
    rw [henc] at het
    injection het with ht
    rw [ht] at hdec
    rw [hdec] at hdt
    cases hdt

/-! ## Registry lemmas -/

theorem lookupReg_append_self : ∀ reg : List (String × Nat), ∀ name d,
    lookupReg reg name = none → lookupReg (reg ++ [(name, d)]) name = some d := by
  intro reg
  induction reg with
  | nil => intro name d _; simp [lookupReg]
  | cons p rest ih =>
    intro name d h
    obtain ⟨n, i⟩ := p
    have h' : (if n = name then some i else lookupReg rest name) = none := h
    show (if n = name then some i else lookupReg (rest ++ [(name, d)]) name) = some d
    by_cases hn : n = name
    · rw [if_pos hn] at h'; cases h'
    · rw [if_neg hn] at h'
      rw [if_neg hn]
      exact ih name d h'

theorem countPair_append : ∀ l1 l2 : List (String × Nat), ∀ name d,
    countPair (l1 ++ l2) name d = countPair l1 name d + countPair l2 name d := by
  intro l1
  induction l1 with
  | nil => intro l2 name d; simp [countPair]
  | cons p rest ih =>
    intro l2 name d
    obtain ⟨n, i⟩ := p
    show (if n = name ∧ i = d then 1 else 0) + countPair (rest ++ l2) name d =
      ((if n = name ∧ i = d then 1 else 0) + countPair rest name d) + countPair l2 name d
    rw [ih]
    omega

theorem countPair_zero_of_lookup_none : ∀ reg : List (String × Nat), ∀ name d,
    lookupReg reg name = none → countPair reg name d = 0 := by
  intro reg
  induction reg with
  | nil => intro name d _; rfl
  | cons p rest ih =>
    intro name d h
    obtain ⟨n, i⟩ := p
    have h' : (if n = name then some i else lookupReg rest name) = none := h
    by_cases hn : n = name
    · rw [if_pos hn] at h'; cases h'
    · rw [if_neg hn] at h'
      show (if n = name ∧ i = d then 1 else 0) + countPair rest name d = 0
      rw [if_neg (fun hc => hn hc.1), ih name d h']

theorem countPair_one_of_namesUnique : ∀ reg : List (String × Nat), ∀ name d,
    namesUnique reg = true → lookupReg reg name = some d → countPair reg name d = 1 := by
  intro reg
  induction reg with
  | nil => intro name d _ h; cases h
  | cons p rest ih =>
    intro name d hu h
    obtain ⟨n, i⟩ := p
    have h' : (if n = name then some i else lookupReg rest name) = some d := h
    have hu' : (match lookupReg rest n with
        | none => namesUnique rest
        | some _ => false) = true := hu
    by_cases hn : n = name
    · rw [if_pos hn] at h'
      injection h' with hi
      subst hn
      cases hrest : lookupReg rest n with
      | none =>
        show (if n = n ∧ i = d then 1 else 0) + countPair rest n d = 1
        rw [if_pos ⟨rfl, hi⟩, countPair_zero_of_lookup_none rest n d hrest]
      | some j => rw [hrest] at hu'; cases hu'
    · rw [if_neg hn] at h'
      show (if n = name ∧ i = d then 1 else 0) + countPair rest name d = 1
      rw [if_neg (fun hc => hn hc.1)]
      cases hrest : lookupReg rest n with
      | none =>
        rw [hrest] at hu'
        rw [ih name d hu' h']
      | some j => rw [hrest] at hu'; cases hu'

theorem lookupReg_mem_names : ∀ reg : List (String × Nat), ∀ name d,
    lookupReg reg name = some d → name ∈ reg.map Prod.fst := by
  intro reg
  induction reg with
  | nil => intro name d h; cases h
  | cons p rest ih =>
    intro name d h
    obtain ⟨n, i⟩ := p
    have h' : (if n = name then some i else lookupReg rest name) = some d := h
    by_cases hn : n = name
    · rw [List.map_cons]
      exact hn ▸ List.mem_cons_self n (rest.map Prod.fst)
    · rw [if_neg hn] at h'
      exact List.mem_cons_of_mem n (ih name d h')

/-- C8: `register` is idempotent on identical pairs.  From any well-formed
registry on which registering (name, d) succeeds — the name is free or already
bound to exactly d — registering the pair twice succeeds both times (no error
is reported), the second call returns the registry unchanged, and the
resulting registry holds exactly one entry for the pair. -/
theorem register_idempotent_same_pair (reg : List (String × Nat)) (name : String) (d : Nat)
    (hu : namesUnique reg = true)
    (h : lookupReg reg name = none ∨ lookupReg reg name = some d) :
    ∃ reg', register name d reg = (reg', none) ∧ register name d reg' = (reg', none) ∧
      countPair reg' name d = 1 := by
  rcases h with h | h
  · refine ⟨reg ++ [(name, d)], ?_, ?_, ?_⟩
    · simp [register, h]
    · simp [register, lookupReg_append_self reg name d h]
    · rw [countPair_append, countPair_zero_of_lookup_none reg name d h]
      simp [countPair]
  · refine ⟨reg, ?_, ?_, ?_⟩
    · simp [register, h]
    · simp [register, h]
    · exact countPair_one_of_namesUnique reg name d hu h

theorem register_idempotent_same_pair_witness :
    ∃ reg', register "chores" 0 [] = (reg', none) ∧
      register "chores" 0 reg' = (reg', none) ∧ countPair reg' "chores" 0 = 1 :=
  register_idempotent_same_pair [] "chores" 0 (by decide) (Or.inl rfl)

/-- C9: registering a name that is already bound to a different document id
fails with `DuplicateName` and returns the registry unchanged (the registry in
the result is exactly the input registry). -/
theorem register_duplicate_name_fails (reg : List (String × Nat)) (name : String)
    (d1 d2 : Nat) (h1 : lookupReg reg name = some d1) (h2 : d2 ≠ d1) :
    register name d2 reg = (reg, some Err.DuplicateName) := by
  simp [register, h1, h2]

theorem register_duplicate_name_fails_witness :
    register "chores" 2 [("chores", 1)] = ([("chores", 1)], some Err.DuplicateName) :=
  register_duplicate_name_fails [("chores", 1)] "chores" 1 2 rfl (by decide)

/-! ## Backend command lemmas -/

theorem get_todos_ok_of (b : Backend) (d : Nat) (ts : List Todo)
    (h1 : b.activeDoc = some d) (h2 : docLookup b.docs d = some ts) :
    get_todos b = Except.ok ts := by
  simp only [get_todos, h1, h2]

theorem get_list_name_ok_of (b : Backend) (n : String) (h : b.activeName = some n) :
    get_list_name b = Except.ok n := by
  simp only [get_list_name, h]

theorem register_ok_mem (name : String) (d : Nat) (reg reg' : List (String × Nat))
    (h : register name d reg = (reg', none)) : name ∈ reg'.map Prod.fst := by
  unfold register at h
  cases hl : lookupReg reg name with
  | some d2 =>
    rw [hl] at h
    simp only [] at h
    by_cases hd : d = d2
    · rw [if_pos hd] at h
      injection h with h1 h2
      subst h1
      exact lookupReg_mem_names reg name d2 hl
    · rw [if_neg hd] at h
      injection h with h1 h2
      cases h2
  | none =>
    rw [hl] at h
    simp only [] at h
    injection h with h1 h2
    subst h1
    simp

theorem new_list_ok (name : String) (b b' : Backend) (h : new_list name b = Except.ok b') :
    b'.activeDoc = some b.nextId ∧ b'.activeName = some name ∧
    docLookup b'.docs b.nextId = some [] ∧ name ∈ get_todo_lists b' := by
  unfold new_list at h
  by_cases hn : (name.length == 0) = true
  · rw [if_pos hn] at h; cases h
  · rw [if_neg hn] at h
    cases hr : register name b.nextId b.registry with
    | mk reg' err =>
      rw [hr] at h
      cases err with
      | some e => cases h
      | none =>
        injection h with h'
        subst h'
        refine ⟨rfl, rfl, ?_, ?_⟩
        · show (if b.nextId = b.nextId then some [] else docLookup b.docs b.nextId) = some []
          rw [if_pos rfl]
        · exact register_ok_mem name b.nextId b.registry reg' hr

theorem open_list_ok (name : String) (b b' : Backend) (h : open_list name b = Except.ok b') :
    ∃ d ts, b'.activeDoc = some d ∧ b'.activeName = some name ∧
      docLookup b'.docs d = some ts := by
  unfold open_list at h
  cases hl : lookupReg b.registry name with
  | none => rw [hl] at h; cases h
  | some d =>
    rw [hl] at h
    simp only [] at h
    cases hd : docLookup b.docs d with
    | none => rw [hd] at h; cases h
    | some ts =>
      rw [hd] at h
      injection h with h'
      subst h'
      exact ⟨d, ts, rfl, rfl, hd⟩

theorem set_ticket_ok (t : String) (b b' : Backend) (h : set_ticket t b = Except.ok b') :
    ∃ d n ts, b'.activeDoc = some d ∧ b'.activeName = some n ∧
      docLookup b'.docs d = some ts := by
  unfold set_ticket at h
  cases hdec : decodeTicket t with
  | error e => rw [hdec] at h; cases h
  | ok p =>
    obtain ⟨d, es⟩ := p
    rw [hdec] at h
    simp only [] at h
    by_cases hr : (es.any fun e => b.reachable.contains e) = true
    · rw [if_pos hr] at h
      cases hrev : revLookup b.registry d with
      | some n =>
        rw [hrev] at h
        simp only [] at h
        injection h with h'
        subst h'
        refine ⟨d, n, ?_⟩
        cases hdl : docLookup b.docs d with
        | some ts => exact ⟨ts, rfl, rfl, hdl⟩
        | none =>
          refine ⟨(docLookup b.remote d).getD [], rfl, rfl, ?_⟩
          show (if d = d then some ((docLookup b.remote d).getD [])
            else docLookup b.docs d) = some ((docLookup b.remote d).getD [])
          rw [if_pos rfl]
      | none =>
        rw [hrev] at h
        simp only [] at h
        cases hreg : register (String.mk ('l' :: compChars d)) d b.registry with
        | mk reg' err =>
          rw [hreg] at h
          cases err with
          | some e => cases h
          | none =>
            injection h with h'
            subst h'
            refine ⟨d, String.mk ('l' :: compChars d), ?_⟩
            cases hdl : docLookup b.docs d with
            | some ts => exact ⟨ts, rfl, rfl, hdl⟩
            | none =>
              refine ⟨(docLookup b.remote d).getD [], rfl, rfl, ?_⟩
              show (if d = d then some ((docLookup b.remote d).getD [])
                else docLookup b.docs d) = some ((docLookup b.remote d).getD [])
              rw [if_pos rfl]
    · rw [if_neg hr] at h
      cases h

/-! ## Frontend refresh lemmas -/

theorem getTodos_be (s : AppState) : (getTodos s).be = s.be := by
  unfold getTodos
  cases h : get_todos s.be with
  | error e => rfl
  | ok ts => rfl

theorem getTodos_error (s : AppState) (e : Err) (h : get_todos s.be = Except.error e) :
    getTodos s = s := by
  unfold getTodos
  rw [h]

theorem getTodos_showOpenList_of_ok (s : AppState) (ts : List Todo)
    (h : get_todos s.be = Except.ok ts) : (getTodos s).fe.showOpenList = false := by
  unfold getTodos
  rw [h]

theorem getTodos_name_of_ok (s : AppState) (ts : List Todo) (n : String)
    (h1 : get_todos s.be = Except.ok ts) (h2 : get_list_name s.be = Except.ok n) :
    (getTodos s).fe.name = n := by
  unfold getTodos
  rw [h1, h2]

theorem viewMode_viewing_of (s : AppState) (h : s.fe.showOpenList = false) :
    viewMode s = ViewMode.viewing := by
  unfold viewMode
  rw [h]
  rfl

theorem get_todos_ok_active (b : Backend) (ts : List Todo) (h : get_todos b = Except.ok ts) :
    ∃ d, b.activeDoc = some d ∧ docLookup b.docs d = some ts := by
  unfold get_todos at h
  cases ha : b.activeDoc with
  | none => rw [ha] at h; cases h
  | some d =>
    rw [ha] at h
    simp only [] at h
    cases hd : docLookup b.docs d with
    | none => rw [hd] at h; cases h
    | some ts2 =>
      rw [hd] at h
      injection h with h'
      exact ⟨d, rfl, by rw [hd, h']⟩

theorem sessionState_getTodos (s : AppState) (hInv : SessionInv s) :
    sessionState (getTodos s) = sessionState s := by
  cases h : get_todos s.be with
  | error e => rw [getTodos_error s e h]
  | ok ts =>
    obtain ⟨d, hd, _⟩ := get_todos_ok_active s.be ts h
    have hso : s.fe.showOpenList = false := by
      cases hb : s.fe.showOpenList
      · rfl
      · have hnone := hInv hb
        rw [hd] at hnone
        cases hnone
    unfold sessionState viewMode
    rw [getTodos_be, getTodos_showOpenList_of_ok s ts h, hso]

/-! ## The session invariant: while the selector is shown, no document is
active.  It holds initially and is preserved by every handler, which justifies
assuming it about any reachable state. -/

theorem sessionInv_initState : SessionInv initState := fun _ => rfl

theorem sessionInv_getTodos (s : AppState) (h : SessionInv s) : SessionInv (getTodos s) := by
  cases hg : get_todos s.be with
  | error e => rw [getTodos_error s e hg]; exact h
  | ok ts =>
    intro hb
    rw [getTodos_showOpenList_of_ok s ts hg] at hb
    cases hb

theorem sessionInv_getTodoLists (s : AppState) (h : SessionInv s) :
    SessionInv (getTodoLists s) := h

theorem sessionInv_createList (s : AppState) (nm : String) (h : SessionInv s) :
    SessionInv ((createList nm s).1) := by
  unfold createList
  by_cases hn : (nm.length == 0) = true
  · rw [if_pos hn]; exact h
  · rw [if_neg hn]
    cases hb : new_list nm s.be with
    | error e => exact h
    | ok b' =>
      intro hb2
      obtain ⟨hact, _, hdoc, _⟩ := new_list_ok nm s.be b' hb
      have hok : get_todos b' = Except.ok [] := get_todos_ok_of b' s.be.nextId [] hact hdoc
      rw [getTodos_showOpenList_of_ok { s with be := b' } [] hok] at hb2
      cases hb2

theorem sessionInv_openList (s : AppState) (nm : String) (h : SessionInv s) :
    SessionInv ((openList nm s).1) := by
  unfold openList
  by_cases hn : (nm.length == 0) = true
  · rw [if_pos hn]; exact h
  · rw [if_neg hn]
    cases hb : open_list nm s.be with
    | error e => exact h
    | ok b' =>
      intro hb2
      obtain ⟨d, ts, hact, _, hdoc⟩ := open_list_ok nm s.be b' hb
      have hok : get_todos b' = Except.ok ts := get_todos_ok_of b' d ts hact hdoc
      rw [getTodos_showOpenList_of_ok { s with be := b' } ts hok] at hb2
      cases hb2

theorem sessionInv_joinList (s : AppState) (t : String) (h : SessionInv s) :
    SessionInv ((joinList t s).1) := by
  unfold joinList
  by_cases hn : (t.length == 0) = true
  · rw [if_pos hn]; exact h
  · rw [if_neg hn]
    show SessionInv (getTodos (setTicket t s).1)
    apply sessionInv_getTodos
    unfold setTicket
    cases hb : set_ticket t s.be with
    | error e => exact h
    | ok b' =>
      intro hb2
      obtain ⟨d, n, ts, hact, _, hdoc⟩ := set_ticket_ok t s.be b' hb
      have hok : get_todos b' = Except.ok ts := get_todos_ok_of b' d ts hact hdoc
      rw [getTodos_showOpenList_of_ok { s with be := b' } ts hok] at hb2
      cases hb2

theorem sessionInv_deliverEvent (s : AppState) (src : Nat) (h : SessionInv s) :
    SessionInv ((deliverEvent src s).1) := by
  unfold deliverEvent
  by_cases hd : s.be.activeDoc = some src
  · rw [if_pos hd]
    exact sessionInv_getTodos s h
  · rw [if_neg hd]
    exact h

/-- C1: on any state satisfying the session invariant (which holds for every
reachable state, by the preservation theorems above), a lifecycle operation
that does not complete — it is rejected by the backend with an error, or
ignored on empty input — leaves the whole Session State (active document id,
active list name and view mode) exactly as it was.  This covers `joinList`,
which runs the state-updating `getTodos` path even when the `set_ticket`
invocation is rejected. -/
theorem lifecycle_failure_preserves_session_state (s : AppState) (hInv : SessionInv s) :
    (∀ nm s' o, createList nm s = (s', o) → o ≠ Outcome.completed →
      sessionState s' = sessionState s) ∧
    (∀ nm s' o, openList nm s = (s', o) → o ≠ Outcome.completed →
      sessionState s' = sessionState s) ∧
    (∀ t s' o, joinList t s = (s', o) → o ≠ Outcome.completed →
      sessionState s' = sessionState s) := by
  refine ⟨?_, ?_, ?_⟩
  · intro nm s' o h hne
    unfold createList at h
    by_cases hn : (nm.length == 0) = true
    · rw [if_pos hn] at h
      injection h with h1 h2
      rw [← h1]
    · rw [if_neg hn] at h
      cases hb : new_list nm s.be with
      | error e =>
        rw [hb] at h
        injection h with h1 h2
        rw [← h1]
      | ok b' =>
        rw [hb] at h
        injection h with h1 h2
        exact absurd h2.symm hne
  · intro nm s' o h hne
    unfold openList at h
    by_cases hn : (nm.length == 0) = true
    · rw [if_pos hn] at h
      injection h with h1 h2
      rw [← h1]
    · rw [if_neg hn] at h
      cases hb : open_list nm s.be with
      | error e =>
        rw [hb] at h
        injection h with h1 h2
        rw [← h1]
      | ok b' =>
        rw [hb] at h
        injection h with h1 h2
        exact absurd h2.symm hne
  · intro t s' o h hne
    unfold joinList at h
    by_cases hn : (t.length == 0) = true
    · rw [if_pos hn] at h
      injection h with h1 h2
      rw [← h1]
    · rw [if_neg hn] at h
      unfold setTicket at h
      cases hb : set_ticket t s.be with
      | error e =>
        rw [hb] at h
        injection h with h1 h2
        rw [← h1]
        exact sessionState_getTodos s hInv
      | ok b' =>
        rw [hb] at h
        injection h with h1 h2
        exact absurd h2.symm hne

theorem lifecycle_failure_preserves_session_state_witness :
    sessionState ((openList "missing" initState).1) = sessionState initState :=
  (lifecycle_failure_preserves_session_state initState sessionInv_initState).2.1
    "missing" (openList "missing" initState).1 (openList "missing" initState).2
    rfl (by decide)

/-- C3: whenever `create`, `open` or `join` completes successfully from a state
in the selecting view mode, the session transitions to viewing with the newly
active list's name set (both in the backend Session State and in the name shown
by the frontend); for `create` the created name moreover appears in
`list_all()` (the `get_todo_lists` registry enumeration). -/
theorem lifecycle_success_enters_viewing (s : AppState)
    (hSel : viewMode s = ViewMode.selecting) :
    (∀ nm s', createList nm s = (s', Outcome.completed) →
      viewMode s' = ViewMode.viewing ∧ s'.be.activeName = some nm ∧
      s'.fe.name = nm ∧ nm ∈ get_todo_lists s'.be) ∧
    (∀ nm s', openList nm s = (s', Outcome.completed) →
      viewMode s' = ViewMode.viewing ∧ s'.be.activeName = some nm ∧ s'.fe.name = nm) ∧
    (∀ t s', joinList t s = (s', Outcome.completed) →
      viewMode s' = ViewMode.viewing ∧
      ∃ n, s'.be.activeName = some n ∧ s'.fe.name = n) := by
  refine ⟨?_, ?_, ?_⟩
  · intro nm s' h
    unfold createList at h
    by_cases hn : (nm.length == 0) = true
    · rw [if_pos hn] at h
      injection h with h1 h2
      cases h2
    · rw [if_neg hn] at h
      cases hb : new_list nm s.be with
      | error e =>
        rw [hb] at h
        injection h with h1 h2
        cases h2
      | ok b' =>
        rw [hb] at h
        injection h with h1 h2
        subst h1
        obtain ⟨hact, hname, hdoc, hmem⟩ := new_list_ok nm s.be b' hb
        have hok : get_todos b' = Except.ok [] := get_todos_ok_of b' s.be.nextId [] hact hdoc
        refine ⟨?_, ?_, ?_, ?_⟩
        · exact viewMode_viewing_of _ (getTodos_showOpenList_of_ok { s with be := b' } [] hok)
        · rw [getTodos_be]
          exact hname
        · exact getTodos_name_of_ok { s with be := b' } [] nm hok (get_list_name_ok_of b' nm hname)
        · rw [getTodos_be]
          exact hmem
  · intro nm s' h
    unfold openList at h
    by_cases hn : (nm.length == 0) = true
    · rw [if_pos hn] at h
      injection h with h1 h2
      cases h2
    · rw [if_neg hn] at h
      cases hb : open_list nm s.be with
      | error e =>
        rw [hb] at h
        injection h with h1 h2
        cases h2
      | ok b' =>
        rw [hb] at h
        injection h with h1 h2
        subst h1
        obtain ⟨d, ts, hact, hname, hdoc⟩ := open_list_ok nm s.be b' hb
        have hok : get_todos b' = Except.ok ts := get_todos_ok_of b' d ts hact hdoc
        refine ⟨?_, ?_, ?_⟩
        · exact viewMode_viewing_of _ (getTodos_showOpenList_of_ok { s with be := b' } ts hok)
        · rw [getTodos_be]
          exact hname
        · exact getTodos_name_of_ok { s with be := b' } ts nm hok (get_list_name_ok_of b' nm hname)
  · intro t s' h
    unfold joinList at h
    by_cases hn : (t.length == 0) = true
    · rw [if_pos hn] at h
      injection h with h1 h2
      cases h2
    · rw [if_neg hn] at h
      unfold setTicket at h
      cases hb : set_ticket t s.be with
      | error e =>
        rw [hb] at h
        injection h with h1 h2
        cases h2
      | ok b' =>
        rw [hb] at h
        injection h with h1 h2
        subst h1
        obtain ⟨d, n, ts, hact, hname, hdoc⟩ := set_ticket_ok t s.be b' hb
        have hok : get_todos b' = Except.ok ts := get_todos_ok_of b' d ts hact hdoc
        have hok2 : get_todos (getTodos { s with be := b' }).be = Except.ok ts := by
          rw [getTodos_be]
          exact hok
        have hln2 : get_list_name (getTodos { s with be := b' }).be = Except.ok n := by
          rw [getTodos_be]
          exact get_list_name_ok_of b' n hname
        refine ⟨?_, n, ?_, ?_⟩
        · exact viewMode_viewing_of _
            (getTodos_showOpenList_of_ok (getTodos { s with be := b' }) ts hok2)
        · rw [getTodos_be, getTodos_be]
          exact hname
        · exact getTodos_name_of_ok (getTodos { s with be := b' }) ts n hok2 hln2

theorem lifecycle_success_enters_viewing_witness :
    viewMode ((createList "groceries" initState).1) = ViewMode.viewing ∧
    ((createList "groceries" initState).1).be.activeName = some "groceries" ∧
    ((createList "groceries" initState).1).fe.name = "groceries" ∧
    "groceries" ∈ get_todo_lists ((createList "groceries" initState).1).be :=
  (lifecycle_success_enters_viewing initState rfl).1 "groceries"
    (createList "groceries" initState).1 rfl

/-- C4: after the active document has been switched away from document `A` by a
completed open, create or join, no change event originating from `A` is
delivered to the consumer any more: delivery only happens for the currently
active document (the modelled Change Notifier re-subscribes on switch, spec
section 4.4), and event delivery itself never changes which document is active,
so `A` stays undelivered until the next lifecycle operation. -/
theorem switch_stops_previous_doc_events (s s' : AppState) (A : Nat)
    (hA : s.be.activeDoc = some A)
    (hsw : (∃ nm, createList nm s = (s', Outcome.completed)) ∨
           (∃ nm, openList nm s = (s', Outcome.completed)) ∨
           (∃ t, joinList t s = (s', Outcome.completed)))
    (hnew : s'.be.activeDoc ≠ some A) :
    deliverEvent A s' = (s', false) ∧
    ∀ src, ((deliverEvent src s').1).be.activeDoc = s'.be.activeDoc := by
  constructor
  · unfold deliverEvent
    rw [if_neg hnew]
  · intro src
    unfold deliverEvent
    by_cases h : s'.be.activeDoc = some src
    · rw [if_pos h]
      show (getTodos s').be.activeDoc = s'.be.activeDoc
      rw [getTodos_be]
    · rw [if_neg h]

theorem switch_stops_previous_doc_events_witness :
    deliverEvent 0 ((openList "b"
      { fe := { allTodos := [], name := "a", showOpenList := false, todoLists := [] },
        be := { registry := [("a", 0), ("b", 1)], docs := [(0, []), (1, [])],
                activeDoc := some 0, activeName := some "a", nextId := 2,
                reachable := [], remote := [] } }).1) =
      ((openList "b"
      { fe := { allTodos := [], name := "a", showOpenList := false, todoLists := [] },
        be := { registry := [("a", 0), ("b", 1)], docs := [(0, []), (1, [])],
                activeDoc := some 0, activeName := some "a", nextId := 2,
                reachable := [], remote := [] } }).1, false) :=
  (switch_stops_previous_doc_events
    { fe := { allTodos := [], name := "a", showOpenList := false, todoLists := [] },
      be := { registry := [("a", 0), ("b", 1)], docs := [(0, []), (1, [])],
              activeDoc := some 0, activeName := some "a", nextId := 2,
              reachable := [], remote := [] } }
    ((openList "b"
      { fe := { allTodos := [], name := "a", showOpenList := false, todoLists := [] },
        be := { registry := [("a", 0), ("b", 1)], docs := [(0, []), (1, [])],
                activeDoc := some 0, activeName := some "a", nextId := 2,
                reachable := [], remote := [] } }).1)
    0 rfl (Or.inr (Or.inl ⟨"b", rfl⟩)) (by decide)).1

/-- C5 counterexample: `createList` on the empty name does not fail with
`InvalidName`: on the initial state it returns with the `ignored` outcome — no
backend invocation, no error — and the `ignored` outcome is not the
`rejected InvalidName` failure the claim requires. -/
theorem create_empty_name_no_error_cex :
    createList "" initState = (initState, Outcome.ignored) ∧
    Outcome.ignored ≠ Outcome.rejected Err.InvalidName :=
  ⟨rfl, by decide⟩

/-- C5 amended: for the empty name input, `createList` is a silent no-op: the
guard in src/App.tsx returns before invoking the backend, so no `InvalidName`
error (nor any other error) is surfaced and the state is left unchanged. -/
theorem create_empty_name_silent_noop (s : AppState) :
    createList "" s = (s, Outcome.ignored) := rfl

/-- C6 counterexample: calling `openList` with the empty name — a name that is
absent from the (empty) registry of the initial state — does not fail with
`NotFound`: the guard in src/App.tsx returns early with the `ignored` outcome
and never invokes the backend lookup. -/
theorem open_empty_name_no_notfound_cex :
    openList "" initState = (initState, Outcome.ignored) ∧
    Outcome.ignored ≠ Outcome.rejected Err.NotFound :=
  ⟨rfl, by decide⟩

/-- C6 amended: calling open on a non-empty name that is absent from the
registry fails with `NotFound` and leaves the application state — in
particular the whole Session State and hence the selecting view mode —
exactly unchanged; the empty name is instead silently ignored without any
error (see the counterexample). -/
theorem open_absent_name_fails_notfound (s : AppState) (name : String)
    (h1 : (name.length == 0) = false) (h2 : lookupReg s.be.registry name = none) :
    openList name s = (s, Outcome.rejected Err.NotFound) := by
  have h1' : ¬ ((name.length == 0) = true) := by
    rw [h1]
    exact Bool.false_ne_true
  unfold openList
  rw [if_neg h1']
  unfold open_list
  rw [h2]

theorem open_absent_name_fails_notfound_witness :
    openList "missing" initState = (initState, Outcome.rejected Err.NotFound) :=
  open_absent_name_fails_notfound initState "missing" rfl rfl

/-- C10: a delivered change notification forces the session into the viewing
mode whatever mode it was in: the `update-all` handler re-runs `getTodos`,
which ends by clearing the selector (`setShowOpenList(false)`) whenever the
`get_todos` fetch of the active document succeeds.  In particular an event that
is delivered while the selector is shown (`showOpenList = true`) switches the
session to viewing although no lifecycle operation was invoked — see the
witness. -/
theorem update_event_forces_viewing (s : AppState) (d : Nat) (ts : List Todo)
    (hd : s.be.activeDoc = some d) (hdoc : docLookup s.be.docs d = some ts) :
    (deliverEvent d s).2 = true ∧ ((deliverEvent d s).1).fe.showOpenList = false := by
  have hok : get_todos s.be = Except.ok ts := get_todos_ok_of s.be d ts hd hdoc
  constructor
  · unfold deliverEvent
    rw [if_pos hd]
  · unfold deliverEvent
    rw [if_pos hd]
    exact getTodos_showOpenList_of_ok s ts hok

theorem update_event_forces_viewing_witness :
    viewMode { fe := { allTodos := [], name := "", showOpenList := true, todoLists := [] },
               be := { registry := [("a", 0)], docs := [(0, [])], activeDoc := some 0,
                       activeName := some "a", nextId := 1, reachable := [],
                       remote := [] } } = ViewMode.selecting ∧
    viewMode ((deliverEvent 0
      { fe := { allTodos := [], name := "", showOpenList := true, todoLists := [] },
        be := { registry := [("a", 0)], docs := [(0, [])], activeDoc := some 0,
                activeName := some "a", nextId := 1, reachable := [],
                remote := [] } }).1) = ViewMode.viewing := by
  refine ⟨rfl, ?_⟩
  exact viewMode_viewing_of _
    (update_event_forces_viewing
      { fe := { allTodos := [], name := "", showOpenList := true, todoLists := [] },
        be := { registry := [("a", 0)], docs := [(0, [])], activeDoc := some 0,
                activeName := some "a", nextId := 1, reachable := [],
                remote := [] } } 0 [] rfl rfl).2
